import Mathlib

/-!
Shallow embedding of the chunk-review data-access layer (`src/db.py`) of the
pairwise-model-comparison repository, together with theorems settling the
frozen claims about it.

Modelling conventions:
* The Supabase backend is modelled by an explicit `Store` value: the chunk
  catalog (`document_chunks_flat`) is a list of `ChunkRow`, the review log
  (`chunk_reviews`) a list of `ReviewLogRow`.  Query order is list order.
* The process-wide run filter (`get_chunking_run_filter`, a dict
  `{chunking_run_id: value}` or `None`) is the `runFilter` field of the store.
* Python sets are modelled as lists used only through membership, Python dicts
  as association lists in insertion order (`addToMap` mirrors
  `dict.setdefault(k, []).append(v)`).
* Pagination loops (`_iter_all_chunk_rows`, `_iter_all_review_rows`) exhaust
  the table, so they are modelled by the filtered list itself; table reads are
  recorded in an explicit `StoreCall` trace where a claim is about which store
  calls happen.
* The `random` module draws are modelled by a `RandDraws` record quantified in
  the theorems: `stay` is the outcome of the comparison
  `random.random() < p_same` (whose probability lies strictly between 0 and 1,
  so both outcomes occur), `cIdx`/`wIdx` index the pools of `random.choice` /
  `random.choices` modulo their length, and `rInt` feeds `random.randint`.
* Python floats in `_weighted_choice_by_coverage` are modelled exactly over
  `ℚ` (the computations involved are small rationals).
-/

/-- Result of Python `int(x)` on the raw `chunk_number` column value:
`num n` abstracts any value on which `int` succeeds with result `n`
(an integer or a numeric string), `nonNumeric` any value on which `int`
raises `TypeError`/`ValueError`. -/
inductive ChunkNum where
  | num (n : Int)
  | nonNumeric
  deriving DecidableEq, Repr

/-- A row of the chunk catalog `document_chunks_flat`; columns are nullable. -/
structure ChunkRow where
  chunk_uuid : Option String
  source : Option String
  chunk_number : Option ChunkNum
  chunking_run_id : Option String
  deriving DecidableEq, Repr

/-- A row of the review log `chunk_reviews` as read back (only `chunk_uuid`
is ever selected by the reads). -/
structure ReviewLogRow where
  chunk_uuid : Option String
  deriving DecidableEq, Repr

/-- The storage backend together with the ambient run-filter configuration. -/
structure Store where
  runFilter : Option String
  chunks : List ChunkRow
  reviews : List ReviewLogRow
  deriving DecidableEq, Repr

/-- Python truthiness of an `Optional[str]`: `None` and `""` are falsy. -/
def strTruthy : Option String → Bool
  | none => false
  | some s => decide (s ≠ "")

/-- `_apply_run_filter`: the rows of the chunk catalog that satisfy the
run-filter equality predicates (all chunk-catalog queries see exactly these). -/
def scopedChunks (st : Store) : List ChunkRow :=
  st.chunks.filter fun r =>
    match st.runFilter with
    | none => true
    | some v => decide (r.chunking_run_id = some v)

/-- `_fetch_all_chunk_uuids_in_run`: the truthy `chunk_uuid` values of all
rows in scope (a Python set; modelled as a list used through membership). -/
def fetchAllChunkUuidsInRun (st : Store) : List String :=
  (scopedChunks st).filterMap fun r =>
    match r.chunk_uuid with
    | some s => if s = "" then none else some s
    | none => none

/-- A Python value as it occurs in the review form payload. -/
inductive PyVal where
  | none
  | bool (b : Bool)
  | str (s : String)
  | int (n : Int)
  | strList (l : List String)
  deriving DecidableEq, Repr

/-- The row dict built by `insert_chunk_review` and sent to the store: it has
exactly these eight fields; in particular `inserted_at` is left to the DB
default and never supplied by the caller. -/
structure ReviewInsertRow where
  chunk_uuid : PyVal
  name : PyVal
  chunk_size : PyVal
  chunk_info : PyVal
  has_well_diagram : PyVal
  comment : PyVal
  observation : PyVal
  well_assignment : PyVal
  deriving DecidableEq, Repr

/-- One record per access to the backend, for claims about which store calls
a function performs. -/
inductive StoreCall where
  | chunksRead
  | reviewsRead
  | reviewsInsert (row : ReviewInsertRow)
  | chunksAdjacentLookup (source : String) (target : Int)
  deriving DecidableEq, Repr

/-- `_fetch_all_reviewed_chunk_uuids`, with the trace of table reads it
performs: the truthy review-log `chunk_uuid`s that belong to the current run,
except that an empty in-run set short-circuits before touching the review
log. -/
def fetchAllReviewedChunkUuidsT (st : Store) :
    List String × List StoreCall :=
  let in_run := fetchAllChunkUuidsInRun st
  if in_run.isEmpty then
    ([], [StoreCall.chunksRead])
  else
    (st.reviews.filterMap fun r =>
      match r.chunk_uuid with
      | some s => if s ≠ "" ∧ in_run.contains s then some s else none
      | none => none,
     [StoreCall.chunksRead, StoreCall.reviewsRead])

/-- Result component of `_fetch_all_reviewed_chunk_uuids`. -/
def fetchAllReviewedChunkUuids (st : Store) : List String :=
  (fetchAllReviewedChunkUuidsT st).1

/-- `source_to_chunks.setdefault(str(src), []).append(cu)` on an assoc list
(Python dict in insertion order). -/
def addToMap (m : List (String × List String)) (k v : String) :
    List (String × List String) :=
  match m with
  | [] => [(k, [v])]
  | p :: rest => if p.1 = k then (p.1, p.2 ++ [v]) :: rest else p :: addToMap rest k v

/-- The loop body of `_fetch_all_chunks_source_map`: rows with a falsy
`source` or `chunk_uuid` are skipped, others are appended under their source. -/
def sourceMapStep (acc : List (String × List String)) (r : ChunkRow) :
    List (String × List String) :=
  match r.source, r.chunk_uuid with
  | some s, some cu => if s = "" ∨ cu = "" then acc else addToMap acc s cu
  | _, _ => acc

/-- `_fetch_all_chunks_source_map`: group the truthy chunk uuids in scope by
their truthy `source`. -/
def fetchAllChunksSourceMap (st : Store) : List (String × List String) :=
  (scopedChunks st).foldl sourceMapStep []

/-- Python dict indexing `m[k]` (and `.get(k, [])`) on the assoc list. -/
def lookupD (m : List (String × List String)) (k : String) : List String :=
  match m with
  | [] => []
  | p :: rest => if p.1 = k then p.2 else lookupD rest k

/-- `random.choice(l)` with the draw supplied as an index (any element is
reachable; empty input, on which Python raises, yields `none`). -/
def pyChoice (l : List α) (i : Nat) : Option α :=
  l[i % l.length]?

/-- `_fetch_row_by_uuid`: first scoped row whose `chunk_uuid` equals the
argument. -/
def fetchRowByUuid (st : Store) (u : String) : Option ChunkRow :=
  (scopedChunks st).find? fun r => decide (r.chunk_uuid = some u)

/-- The epsilon default of `_weighted_choice_by_coverage` (`1e-6`). -/
def epsDefault : ℚ := 1 / 1000000

/-- The weight `max(0.0, 1.0 - coverage) + epsilon` computed for one source
with `total` chunks of which `reviewedCnt` are reviewed. -/
def srcWeight (total reviewedCnt : Nat) (eps : ℚ) : ℚ :=
  max 0 (1 - (reviewedCnt : ℚ) / (total : ℚ)) + eps

/-- The parallel `sources`/`weights` lists of `_weighted_choice_by_coverage`
(sources with zero chunks are skipped). -/
def weightedEntries (stc : List (String × List String)) (reviewed : List String)
    (eps : ℚ) : List (String × ℚ) :=
  stc.filterMap fun p =>
    if p.2.length = 0 then none
    else some (p.1, srcWeight p.2.length (p.2.countP (reviewed.contains ·)) eps)

/-- `_weighted_choice_by_coverage`, with the `random.choices` draw supplied as
an index; every source has strictly positive weight, so every index is in the
support of the real draw. -/
def weightedChoiceByCoverage (stc : List (String × List String))
    (reviewed : List String) (eps : ℚ) (i : Nat) : Option String :=
  let es := weightedEntries stc reviewed eps
  if es.isEmpty then none
  else (es.map Prod.fst)[i % es.length]?

/-- The random draws one call may consume (see the module docstring). -/
structure RandDraws where
  stay : Bool
  wIdx : Nat
  cIdx : Nat
  rInt : Nat
  deriving DecidableEq, Repr

/-- `get_random_chunk`: prefer unreviewed chunks of a low-coverage source
chosen by `_weighted_choice_by_coverage`; `if not chosen_source` falls back to
a uniform offset (`random.randint(0, total - 1)`) within the scoped rows. -/
def get_random_chunk (st : Store) (rand : RandDraws) : Option ChunkRow :=
  let total := (scopedChunks st).length
  if total ≤ 0 then none
  else
    let reviewed := fetchAllReviewedChunkUuids st
    let stc := fetchAllChunksSourceMap st
    if stc.isEmpty then none
    else
      let chosen := weightedChoiceByCoverage stc reviewed epsDefault rand.wIdx
      if strTruthy chosen = false then
        (scopedChunks st)[rand.rInt % total]?
      else
        let cu_list := lookupD stc (chosen.getD "")
        let unreviewed := cu_list.filter fun cu => !(reviewed.contains cu)
        let target :=
          if unreviewed.isEmpty then pyChoice cu_list rand.cIdx
          else pyChoice unreviewed rand.cIdx
        target.bind (fetchRowByUuid st)

/-- The `if not other_sources:` fallback of `get_similar_chunk` (only the
current document is available): pool is the current document minus the chunk
itself, preferring unreviewed. -/
def similarSameFallback (st : Store) (rand : RandDraws) (x : String)
    (reviewed : List String) (cu_list : List String) : Option ChunkRow :=
  let pool := cu_list.filter fun cu => decide (cu ≠ x)
  if pool.isEmpty then none
  else
    let unreviewed_other := pool.filter fun cu => !(reviewed.contains cu)
    let pool2 := if unreviewed_other.isEmpty then pool else unreviewed_other
    (pyChoice pool2 rand.cIdx).bind (fetchRowByUuid st)

/-- The `if not chosen_other:` fallback of `get_similar_chunk`: flat uniform
pool over all chunks of the other sources, preferring unreviewed. -/
def similarFlatFallback (st : Store) (rand : RandDraws)
    (reviewed : List String) (other : List (String × List String)) :
    Option ChunkRow :=
  let flat_pool := other.foldr (fun p acc => p.2 ++ acc) []
  if flat_pool.isEmpty then none
  else
    let unreviewed_pool := flat_pool.filter fun cu => !(reviewed.contains cu)
    let pool := if unreviewed_pool.isEmpty then flat_pool else unreviewed_pool
    (pyChoice pool rand.cIdx).bind (fetchRowByUuid st)

/-- The final branch of `get_similar_chunk`: within the chosen other source,
prefer an unreviewed chunk, else uniform over the source's chunks. -/
def similarChosenOther (st : Store) (rand : RandDraws)
    (reviewed : List String) (other : List (String × List String))
    (chosen : String) : Option ChunkRow :=
  let other_cu_list := lookupD other chosen
  let unreviewed_other := other_cu_list.filter fun cu => !(reviewed.contains cu)
  let target :=
    if unreviewed_other.isEmpty then pyChoice other_cu_list rand.cIdx
    else pyChoice unreviewed_other rand.cIdx
  target.bind (fetchRowByUuid st)

/-- The part of `get_similar_chunk` from the comment
`# Else choose other documents by low-coverage weighting` on, reached when the
probabilistic same-document attempt is not taken or its pool is empty. -/
def similarOther (st : Store) (rand : RandDraws) (x cs : String)
    (reviewed : List String) (stc : List (String × List String))
    (cu_list : List String) : Option ChunkRow :=
  let other := stc.filter fun p => decide (p.1 ≠ cs) && !p.2.isEmpty
  if other.isEmpty then
    similarSameFallback st rand x reviewed cu_list
  else
    let chosen := weightedChoiceByCoverage other reviewed epsDefault rand.wIdx
    if strTruthy chosen = false then
      similarFlatFallback st rand reviewed other
    else
      similarChosenOther st rand reviewed other (chosen.getD "")

/-- Body of `get_similar_chunk` after the truthiness guard on the argument
(`x` is the chunk identifier, a non-empty string). -/
def getSimilarBody (st : Store) (rand : RandDraws) (x : String) : Option ChunkRow :=
  match (scopedChunks st).find? (fun r => decide (r.chunk_uuid = some x)) with
  | none => none
  | some cur =>
    match cur.source with
    | none => none
    | some cs =>
      if cs = "" then none
      else
        let reviewed := fetchAllReviewedChunkUuids st
        let stc := fetchAllChunksSourceMap st
        let cu_list := lookupD stc cs
        if cu_list.isEmpty then none
        else
          -- p_same = 0.05 + 0.9 * (1 - coverage) lies strictly in (0, 1), so
          -- the draw `random.random() < p_same` is the boolean `rand.stay`.
          let unreviewed_other := cu_list.filter fun cu =>
            !(reviewed.contains cu) && decide (cu ≠ x)
          let pool :=
            if unreviewed_other.isEmpty then cu_list.filter fun cu => decide (cu ≠ x)
            else unreviewed_other
          if rand.stay && !pool.isEmpty then
            (pyChoice pool rand.cIdx).bind (fetchRowByUuid st)
          else
            similarOther st rand x cs reviewed stc cu_list

/-- `get_similar_chunk` (the argument is nullable in Python; `None` and `""`
are rejected by the truthiness guard). -/
def get_similar_chunk (st : Store) (rand : RandDraws) (chunk_uuid : Option String) :
    Option ChunkRow :=
  match chunk_uuid with
  | none => none
  | some x => if x = "" then none else getSimilarBody st rand x

/-- `get_chunk_by_uuid`, with its store-call trace. -/
def get_chunk_by_uuid (st : Store) (chunk_uuid : Option String) :
    Option ChunkRow × List StoreCall :=
  match chunk_uuid with
  | none => (none, [])
  | some u =>
    if u = "" then (none, [])
    else (fetchRowByUuid st u, [StoreCall.chunksRead])

/-- Result of `get_adjacent_chunk`: a row, the not-found sentinel `False`, or
the raised `ValueError` for an invalid direction. -/
inductive AdjResult where
  | row (r : ChunkRow)
  | notFound
  | invalidArg (msg : String)
  deriving DecidableEq, Repr

/-- Whether an `AdjResult` is the raised invalid-direction error. -/
def AdjResult.isInvalidArg : AdjResult → Bool
  | .invalidArg _ => true
  | _ => false

/-- The first scoped row whose `chunk_uuid` matches (the `limit(1)` lookup at
the top of `get_adjacent_chunk` and `count_chunks_in_document`). -/
def adjResolve (st : Store) (u : String) : Option ChunkRow :=
  (scopedChunks st).find? fun r => decide (r.chunk_uuid = some u)

/-- The second query of `get_adjacent_chunk`: row with the same `source` and
`chunk_number = target`, under run scope. -/
def adjLookup (st : Store) (s : String) (t : Int) : AdjResult × List StoreCall :=
  match (scopedChunks st).find?
      (fun r => decide (r.source = some s) && decide (r.chunk_number = some (ChunkNum.num t))) with
  | some r => (AdjResult.row r, [StoreCall.chunksRead, StoreCall.chunksAdjacentLookup s t])
  | none => (AdjResult.notFound, [StoreCall.chunksRead, StoreCall.chunksAdjacentLookup s t])

/-- `get_adjacent_chunk`, with its store-call trace. -/
def get_adjacent_chunk (st : Store) (chunk_uuid : Option String)
    (direction : String) : AdjResult × List StoreCall :=
  match chunk_uuid with
  | none => (AdjResult.notFound, [])
  | some u =>
    if u = "" then (AdjResult.notFound, [])
    else
      match adjResolve st u with
      | none => (AdjResult.notFound, [StoreCall.chunksRead])
      | some cur =>
        match cur.source, cur.chunk_number with
        | none, _ => (AdjResult.notFound, [StoreCall.chunksRead])
        | some _, none => (AdjResult.notFound, [StoreCall.chunksRead])
        | some s, some cn =>
          match cn with
          | ChunkNum.nonNumeric => (AdjResult.notFound, [StoreCall.chunksRead])
          | ChunkNum.num n =>
            if direction = "next" then adjLookup st s (n + 1)
            else if direction = "prev" then
              if n - 1 < 0 then (AdjResult.notFound, [StoreCall.chunksRead])
              else adjLookup st s (n - 1)
            else
              (AdjResult.invalidArg "direction must be next or prev",
               [StoreCall.chunksRead])

/-- `count_chunks_in_document`, with its store-call trace. -/
def count_chunks_in_document (st : Store) (chunk_uuid : Option String) :
    Nat × List StoreCall :=
  match chunk_uuid with
  | none => (0, [])
  | some u =>
    if u = "" then (0, [])
    else
      match adjResolve st u with
      | none => (0, [StoreCall.chunksRead])
      | some cur =>
        match cur.source with
        | none => (0, [StoreCall.chunksRead])
        | some s =>
          if s = "" then (0, [StoreCall.chunksRead])
          else
            (((scopedChunks st).filter fun r => decide (r.source = some s)).length,
             [StoreCall.chunksRead, StoreCall.chunksRead])

/-- Python truthiness of a `PyVal`. -/
def pyTruthy : PyVal → Bool
  | PyVal.none => false
  | PyVal.bool b => b
  | PyVal.str s => decide (s ≠ "")
  | PyVal.int n => decide (n ≠ 0)
  | PyVal.strList l => !l.isEmpty

/-- Python `str()` on a `PyVal` (list repr uses single quotes, built from the
character code to keep the sources plain). -/
def pyStr : PyVal → String
  | PyVal.none => "None"
  | PyVal.bool true => "True"
  | PyVal.bool false => "False"
  | PyVal.str s => s
  | PyVal.int n => toString n
  | PyVal.strList l =>
    let q := String.singleton (Char.ofNat 39)
    "[" ++ String.intercalate ", " (l.map fun s => q ++ s ++ q) ++ "]"

/-- Python `str.strip()` whitespace test (ASCII whitespace). -/
def isPySpace (c : Char) : Bool :=
  c = ' ' || c = '\t' || c = '\n' || c = '\r' || c = '\x0b' || c = '\x0c'

/-- ASCII lower-casing of one character (the inputs this program feeds to
`str.lower()` are ASCII). -/
def lowerChar (c : Char) : Char :=
  if 65 ≤ c.toNat ∧ c.toNat ≤ 90 then Char.ofNat (c.toNat + 32) else c

/-- Python `str.strip()`: drop whitespace from both ends. -/
def pyStrip (s : String) : String :=
  String.mk (((s.data.dropWhile isPySpace).reverse.dropWhile isPySpace).reverse)

/-- Python `str.lower()`. -/
def pyLower (s : String) : String :=
  String.mk (s.data.map lowerChar)

/-- The accepted-token set of `_boolify`. -/
def boolTokens : List String := ["yes", "y", "true", "1", "t"]

/-- `_boolify`: `None` and booleans pass through, anything else is stringified,
stripped, lower-cased and compared against `boolTokens`. -/
def boolify : PyVal → PyVal
  | PyVal.none => PyVal.none
  | PyVal.bool b => PyVal.bool b
  | v => PyVal.bool (boolTokens.contains (pyLower (pyStrip (pyStr v))))

/-- The review form payload: a Python dict, key to value. -/
abbrev Payload := List (String × PyVal)

/-- `form_payload.get(k)` (absent keys give `None`). -/
def pget (p : Payload) (k : String) : PyVal :=
  match p.find? (fun q => decide (q.1 = k)) with
  | some q => q.2
  | none => PyVal.none

/-- `k in form_payload`. -/
def hasKey (p : Payload) (k : String) : Bool :=
  (p.map Prod.fst).contains k

/-- Python `a or b`. -/
def pyOr (a b : PyVal) : PyVal :=
  if pyTruthy a then a else b

/-- The eight payload keys `insert_chunk_review` reads. -/
def reviewFields : List String :=
  ["chunk_uuid", "name", "chunk_size", "chunk_info", "has_well_diagram",
   "comment", "observation", "well_assignment"]

/-- The `row` dict literal of `insert_chunk_review`. -/
def mkReviewRow (p : Payload) : ReviewInsertRow :=
  ⟨pget p "chunk_uuid", pget p "name", pget p "chunk_size", pget p "chunk_info",
   boolify (pget p "has_well_diagram"), pget p "comment", pget p "observation",
   pyOr (pget p "well_assignment") (PyVal.strList [])⟩

/-- Errors raised by `insert_chunk_review`: the `ValueError` validation
failure and the `RuntimeError` for an empty insert response. -/
inductive DbError where
  | valueError (msg : String)
  | runtimeError (msg : String)
  deriving DecidableEq, Repr

/-- `insert_chunk_review`, with its store-call trace; `respData` models the
`data` attribute of the insert response returned by the backend. -/
def insert_chunk_review (respData : ReviewInsertRow → List ReviewInsertRow)
    (form_payload : Payload) : Except DbError ReviewInsertRow × List StoreCall :=
  if form_payload.isEmpty || !hasKey form_payload "chunk_uuid" then
    (Except.error (DbError.valueError "chunk_uuid is required"), [])
  else
    let row := mkReviewRow form_payload
    match respData row with
    | [] => (Except.error (DbError.runtimeError "Insert failed with no data returned"),
             [StoreCall.reviewsInsert row])
    | r :: _ => (Except.ok r, [StoreCall.reviewsInsert row])

/-! Concrete stores, payloads and draws used to instantiate the theorems. -/

/-- A chunk with sequence number 0 in document `d`. -/
def rowW1 : ChunkRow := ⟨some "u1", some "d", some (ChunkNum.num 0), none⟩

/-- The successor chunk of `rowW1` in document `d`. -/
def rowW2 : ChunkRow := ⟨some "u2", some "d", some (ChunkNum.num 1), none⟩

/-- An unscoped store holding one two-chunk document and no reviews. -/
def stW : Store := ⟨none, [rowW1, rowW2], []⟩

/-- A chunk whose `chunk_number` column holds a non-numeric value. -/
def rowC3 : ChunkRow := ⟨some "u", some "d", some ChunkNum.nonNumeric, none⟩

/-- A store whose only chunk has a non-numeric sequence number. -/
def stC3 : Store := ⟨none, [rowC3], []⟩

/-- A store with one in-scope chunk whose `source` is null, so the
source grouping is empty while the scoped count is positive. -/
def stC4 : Store := ⟨none, [⟨some "u1", none, some (ChunkNum.num 0), none⟩], []⟩

/-- A store whose run filter matches no chunk although the review log is
non-empty. -/
def stC7 : Store :=
  ⟨some "X", [⟨some "u1", some "d", some (ChunkNum.num 0), some "Y"⟩], [⟨some "u1"⟩]⟩

/-- An insert backend that echoes the inserted row. -/
def oneRowResp : ReviewInsertRow → List ReviewInsertRow := fun r => [r]

/-- A payload whose `chunk_uuid` key is present but holds the falsy `None`. -/
def payloadNoneUuid : Payload := [("chunk_uuid", PyVal.none)]

/-- A payload with a valid `chunk_uuid` and one extra, unread key. -/
def payloadExtra : Payload := [("chunk_uuid", PyVal.str "u"), ("extra", PyVal.int 5)]

/-- `payloadExtra` without the extra key. -/
def payloadPlain : Payload := [("chunk_uuid", PyVal.str "u")]

/-- A fixed bundle of random draws. -/
def randW : RandDraws := ⟨true, 0, 0, 0⟩

/-! ## Helper lemmas -/

theorem adjLookup_fst_not_invalidArg (st : Store) (s : String) (t : Int) :
    (adjLookup st s t).1.isInvalidArg = false := by
  unfold adjLookup
  cases (scopedChunks st).find?
      (fun r => decide (r.source = some s) && decide (r.chunk_number = some (ChunkNum.num t))) <;>
    rfl

theorem pyChoice_mem {l : List α} {i : Nat} {a : α} (h : pyChoice l i = some a) :
    a ∈ l := by
  unfold pyChoice at h
  exact List.getElem?_mem h

theorem fetchRowByUuid_uuid {st : Store} {u : String} {row : ChunkRow}
    (h : fetchRowByUuid st u = some row) : row.chunk_uuid = some u := by
  have := List.find?_some h
  exact of_decide_eq_true this

/-! ## Claims -/

/-- C8: the `has_well_diagram` normalization `_boolify` maps a boolean to
itself and `None` to `None`; it maps a string to `True` exactly when its
stripped, lower-cased form is one of `{"yes","y","true","1","t"}`; in
particular `"Yes"` and `True` normalize to the same boolean. -/
theorem boolify_normalization :
    (∀ b, boolify (PyVal.bool b) = PyVal.bool b) ∧
    boolify PyVal.none = PyVal.none ∧
    (∀ s, boolify (PyVal.str s) = PyVal.bool (boolTokens.contains (pyLower (pyStrip s)))) ∧
    boolify (PyVal.str "Yes") = boolify (PyVal.bool true) :=
  ⟨fun _ => rfl, rfl, fun _ => rfl, by decide⟩

/-- C10: a falsy chunk identifier (`None` or `""`) makes each single-chunk
lookup return its absent sentinel without a single store call:
`get_chunk_by_uuid` gives `None`, `get_adjacent_chunk` the not-found value
`False`, and `count_chunks_in_document` the count 0. -/
theorem falsy_id_short_circuits (st : Store) (u : Option String)
    (h : strTruthy u = false) :
    get_chunk_by_uuid st u = (none, []) ∧
    (∀ dir, get_adjacent_chunk st u dir = (AdjResult.notFound, [])) ∧
    count_chunks_in_document st u = (0, []) := by
  cases u with
  | none => exact ⟨rfl, fun _ => rfl, rfl⟩
  | some s =>
    have hs : s = "" := by
      by_contra hne
      simp [strTruthy, hne] at h
    subst hs
    exact ⟨rfl, fun _ => rfl, rfl⟩

/-- Witness for C10 at the identifier `None` on a populated store. -/
theorem falsy_id_short_circuits_witness :
    get_chunk_by_uuid stW none = (none, []) ∧
    get_adjacent_chunk stW none "prev" = (AdjResult.notFound, []) ∧
    count_chunks_in_document stW none = (0, []) :=
  ⟨(falsy_id_short_circuits stW none rfl).1,
   (falsy_id_short_circuits stW none rfl).2.1 "prev",
   (falsy_id_short_circuits stW none rfl).2.2⟩

/-- C7: when the run scope matches zero chunks,
`_fetch_all_reviewed_chunk_uuids` returns the empty set and never reads the
review log. -/
theorem reviewed_uuids_short_circuit (st : Store) (h : scopedChunks st = []) :
    (fetchAllReviewedChunkUuidsT st).1 = [] ∧
    StoreCall.reviewsRead ∉ (fetchAllReviewedChunkUuidsT st).2 := by
  have hin : fetchAllChunkUuidsInRun st = [] := by
    simp [fetchAllChunkUuidsInRun, h]
  refine ⟨?_, ?_⟩ <;> simp [fetchAllReviewedChunkUuidsT, hin]

/-- Witness for C7: a run filter matching no chunk, with a non-empty review
log. -/
theorem reviewed_uuids_short_circuit_witness :
    (fetchAllReviewedChunkUuidsT stC7).1 = [] ∧
    StoreCall.reviewsRead ∉ (fetchAllReviewedChunkUuidsT stC7).2 :=
  reviewed_uuids_short_circuit stC7 (by decide)

/-- C6: on a chunk whose sequence number is 0, `get_adjacent_chunk(id,"prev")`
returns the not-found value and issues no same-source/number store lookup at
all — in particular none with a negative number. -/
theorem prev_at_zero_not_found (st : Store) (u : String) (r : ChunkRow)
    (hr : adjResolve st u = some r)
    (h0 : r.chunk_number = some (ChunkNum.num 0)) :
    (get_adjacent_chunk st (some u) "prev").1 = AdjResult.notFound ∧
    ∀ s t, StoreCall.chunksAdjacentLookup s t ∈ (get_adjacent_chunk st (some u) "prev").2 →
      (0 : Int) ≤ t := by
  by_cases hu : u = ""
  · subst hu
    exact ⟨rfl, by simp [get_adjacent_chunk]⟩
  · cases hsrc : r.source with
    | none =>
      refine ⟨?_, ?_⟩ <;> simp [get_adjacent_chunk, hu, hr, hsrc]
    | some s =>
      refine ⟨?_, ?_⟩ <;>
        simp [get_adjacent_chunk, hu, hr, hsrc, h0, (by decide : (-1 : Int) < 0)]

/-- Witness for C6 at the zero-numbered chunk of `stW`. -/
theorem prev_at_zero_not_found_witness :
    (get_adjacent_chunk stW (some "u1") "prev").1 = AdjResult.notFound :=
  (prev_at_zero_not_found stW "u1" rowW1 rfl rfl).1

/-- C2 (counterexample): a payload whose `chunk_uuid` key holds the falsy
value `None` is accepted — no ValidationError is raised and the store insert
is performed — refuting the claim that `chunk_uuid` must be truthy. -/
theorem insert_accepts_falsy_uuid :
    pyTruthy (pget payloadNoneUuid "chunk_uuid") = false ∧
    (insert_chunk_review oneRowResp payloadNoneUuid).1 =
      Except.ok (mkReviewRow payloadNoneUuid) ∧
    (insert_chunk_review oneRowResp payloadNoneUuid).2 =
      [StoreCall.reviewsInsert (mkReviewRow payloadNoneUuid)] :=
  ⟨rfl, rfl, rfl⟩

/-- C2 (amended): `insert_chunk_review` raises its ValidationError exactly
when the key `chunk_uuid` is absent from the payload (the value is not
required to be truthy), and in that case no store call is made; hence any
payload containing the key — whatever the other fields — is past validation. -/
theorem insert_requires_chunk_uuid_key
    (respData : ReviewInsertRow → List ReviewInsertRow) (p : Payload) :
    ((insert_chunk_review respData p).1 =
        Except.error (DbError.valueError "chunk_uuid is required") ↔
      hasKey p "chunk_uuid" = false) ∧
    (hasKey p "chunk_uuid" = false → (insert_chunk_review respData p).2 = []) := by
  by_cases hk : hasKey p "chunk_uuid"
  · have hne : p.isEmpty = false := by
      cases p with
      | nil => simp [hasKey] at hk
      | cons a l => rfl
    unfold insert_chunk_review
    rw [hne, hk]
    simp only [Bool.not_true, Bool.false_or]
    constructor
    · simp only [hk, Bool.true_eq_false, iff_false]
      cases respData (mkReviewRow p) <;> simp
    · intro hcontra
      exact absurd hcontra (by simp)
  · have hk' : hasKey p "chunk_uuid" = false := by simpa using hk
    unfold insert_chunk_review
    rw [hk']
    simp [hk']

/-- Witness for C2 (amended) at the empty payload. -/
theorem insert_requires_chunk_uuid_key_witness :
    ((insert_chunk_review oneRowResp ([] : Payload)).1 =
        Except.error (DbError.valueError "chunk_uuid is required") ↔
      hasKey ([] : Payload) "chunk_uuid" = false) ∧
    (insert_chunk_review oneRowResp ([] : Payload)).2 = [] :=
  ⟨(insert_requires_chunk_uuid_key oneRowResp []).1,
   (insert_requires_chunk_uuid_key oneRowResp []).2 rfl⟩

/-- C9: for every payload past validation, the single store call carries
exactly the row `mkReviewRow p` (eight fields, no `inserted_at`); the row
depends only on the eight read keys, so extra keys are discarded; and a falsy
`well_assignment` becomes the empty list. -/
theorem insert_row_frame (respData : ReviewInsertRow → List ReviewInsertRow)
    (p : Payload) (h : hasKey p "chunk_uuid" = true) :
    (insert_chunk_review respData p).2 = [StoreCall.reviewsInsert (mkReviewRow p)] ∧
    (∀ q : Payload, (∀ k ∈ reviewFields, pget q k = pget p k) →
      mkReviewRow q = mkReviewRow p) ∧
    (pyTruthy (pget p "well_assignment") = false →
      (mkReviewRow p).well_assignment = PyVal.strList []) := by
  refine ⟨?_, ?_, ?_⟩
  · have hne : p.isEmpty = false := by
      cases p with
      | nil => simp [hasKey] at h
      | cons a l => rfl
    unfold insert_chunk_review
    rw [hne, h]
    simp only [Bool.not_true, Bool.false_or, Bool.false_eq_true, if_false]
    cases respData (mkReviewRow p) <;> rfl
  · intro q hq
    unfold mkReviewRow
    rw [hq "chunk_uuid" (by decide), hq "name" (by decide),
        hq "chunk_size" (by decide), hq "chunk_info" (by decide),
        hq "has_well_diagram" (by decide), hq "comment" (by decide),
        hq "observation" (by decide), hq "well_assignment" (by decide)]
  · intro hw
    unfold mkReviewRow pyOr
    rw [hw]
    rfl

/-- Witness for C9: the extra key of `payloadExtra` does not change the row,
and its absent `well_assignment` is stored as the empty list. -/
theorem insert_row_frame_witness :
    (insert_chunk_review oneRowResp payloadExtra).2 =
      [StoreCall.reviewsInsert (mkReviewRow payloadExtra)] ∧
    mkReviewRow payloadPlain = mkReviewRow payloadExtra ∧
    (mkReviewRow payloadExtra).well_assignment = PyVal.strList [] :=
  ⟨(insert_row_frame oneRowResp payloadExtra rfl).1,
   (insert_row_frame oneRowResp payloadExtra rfl).2.1 payloadPlain (by decide),
   (insert_row_frame oneRowResp payloadExtra rfl).2.2 rfl⟩

/-- C3 (counterexample): on a chunk whose `chunk_number` is non-numeric the
code returns the not-found sentinel — it does not raise — even when the
direction is also malformed, refuting the claim that a non-numeric sequence
number raises InvalidArgument and never yields the not-found value. -/
theorem non_numeric_returns_not_found :
    rowC3.chunk_number = some ChunkNum.nonNumeric ∧
    (get_adjacent_chunk stC3 (some "u") "bogus").1 = AdjResult.notFound ∧
    (get_adjacent_chunk stC3 (some "u") "bogus").1.isInvalidArg = false ∧
    (get_adjacent_chunk stC3 (some "u") "next").1 = AdjResult.notFound :=
  ⟨rfl, rfl, rfl, rfl⟩

/-- C3 (amended): `get_adjacent_chunk` raises InvalidArgument exactly when the
identifier is truthy and resolves to a row with a non-null source and a
numeric sequence number while the direction is neither `"next"` nor `"prev"`;
a non-numeric sequence number instead yields the not-found value. -/
theorem invalid_direction_raises_iff (st : Store) (u : String) (dir : String) :
    ((get_adjacent_chunk st (some u) dir).1.isInvalidArg = true ↔
      u ≠ "" ∧ ∃ r, adjResolve st u = some r ∧ r.source ≠ none ∧
        (∃ n, r.chunk_number = some (ChunkNum.num n)) ∧
        dir ≠ "next" ∧ dir ≠ "prev") ∧
    (∀ r, adjResolve st u = some r → r.chunk_number = some ChunkNum.nonNumeric →
      (get_adjacent_chunk st (some u) dir).1 = AdjResult.notFound) := by
  by_cases hu : u = ""
  · subst hu
    refine ⟨?_, ?_⟩ <;> simp [get_adjacent_chunk, AdjResult.isInvalidArg]
  · cases hres : adjResolve st u with
    | none =>
      refine ⟨?_, ?_⟩ <;> simp [get_adjacent_chunk, hu, hres, AdjResult.isInvalidArg]
    | some r =>
      cases hsrc : r.source with
      | none =>
        refine ⟨?_, ?_⟩ <;>
          simp [get_adjacent_chunk, hu, hres, hsrc, AdjResult.isInvalidArg]
      | some s =>
        cases hnum : r.chunk_number with
        | none =>
          refine ⟨?_, ?_⟩ <;>
            simp [get_adjacent_chunk, hu, hres, hsrc, hnum, AdjResult.isInvalidArg]
        | some cn =>
          cases cn with
          | nonNumeric =>
            refine ⟨?_, ?_⟩ <;>
              simp [get_adjacent_chunk, hu, hres, hsrc, hnum, AdjResult.isInvalidArg]
          | num n =>
            refine ⟨?_, ?_⟩
            · by_cases hnext : dir = "next"
              · subst hnext
                simp [get_adjacent_chunk, hu, hres, hsrc, hnum,
                  adjLookup_fst_not_invalidArg]
              · by_cases hprev : dir = "prev"
                · subst hprev
                  by_cases hneg : n - 1 < 0
                  · simp [get_adjacent_chunk, hu, hres, hsrc, hnum, hneg,
                      AdjResult.isInvalidArg]
                  · simp [get_adjacent_chunk, hu, hres, hsrc, hnum, hneg,
                      adjLookup_fst_not_invalidArg]
                · simp only [get_adjacent_chunk, hu, hres, hsrc, hnum, hnext, hprev,
                    if_false, AdjResult.isInvalidArg]
                  simp only [true_iff, decide_True]
                  refine ⟨hu, r, rfl, by simp [hsrc], ⟨n, hnum⟩, hnext, hprev⟩
            · intro r' hr' hnn
              cases hr'
              rw [hnum] at hnn
              exact absurd hnn (by simp)

/-- Witness for C3 (amended): a malformed direction on a resolvable,
numerically-numbered chunk does raise. -/
theorem invalid_direction_raises_iff_witness :
    (get_adjacent_chunk stW (some "u1") "bogus").1.isInvalidArg = true :=
  (invalid_direction_raises_iff stW "u1" "bogus").1.mpr
    ⟨by decide, rowW1, rfl, by decide, ⟨0, rfl⟩, by decide, by decide⟩

/-- C4 (counterexample): a store with one in-scope chunk whose `source` is
null has a positive scoped count and an empty source grouping, yet
`get_random_chunk` returns `None` — the uniform-offset fallback (which would
find the row at offset 0) is not taken. -/
theorem empty_grouping_no_fallback :
    0 < (scopedChunks stC4).length ∧
    fetchAllChunksSourceMap stC4 = [] ∧
    get_random_chunk stC4 randW = none ∧
    ((scopedChunks stC4)[randW.rInt % (scopedChunks stC4).length]?).isSome = true := by
  refine ⟨by decide, rfl, rfl, by decide⟩

/-- C4 (amended): when the in-scope chunk count is positive but the source
grouping is empty, `get_random_chunk` returns `None` (the uniform-offset
fallback is only reachable from a falsy weighted choice on a non-empty
grouping). -/
theorem empty_grouping_returns_none (st : Store) (rand : RandDraws)
    (htot : 0 < (scopedChunks st).length)
    (hmap : fetchAllChunksSourceMap st = []) :
    get_random_chunk st rand = none := by
  have h1 : ¬ ((scopedChunks st).length ≤ 0) := by omega
  simp [get_random_chunk, hmap, h1]

/-- Witness for C4 (amended) at the concrete store `stC4`. -/
theorem empty_grouping_returns_none_witness :
    get_random_chunk stC4 randW = none :=
  empty_grouping_returns_none stC4 randW (by decide) rfl

/-- C5: every source with at least one chunk gets weight
`max(0, 1 - coverage) + ε > 0`; a source with coverage 0 gets `1 + ε`, one
with coverage 1 gets `ε`, and `ε < 1 + ε`; the weighted choice returns `None`
exactly when the mapping contributes no source (every value list is empty). -/
theorem coverage_weight_properties (stc : List (String × List String))
    (reviewed : List String) (i : Nat) :
    (∀ p ∈ weightedEntries stc reviewed epsDefault, 0 < p.2) ∧
    (∀ l : List String, l ≠ [] → l.countP (reviewed.contains ·) = 0 →
      srcWeight l.length (l.countP (reviewed.contains ·)) epsDefault = 1 + epsDefault) ∧
    (∀ l : List String, l ≠ [] → l.countP (reviewed.contains ·) = l.length →
      srcWeight l.length (l.countP (reviewed.contains ·)) epsDefault = epsDefault) ∧
    epsDefault < 1 + epsDefault ∧
    (weightedChoiceByCoverage stc reviewed epsDefault i = none ↔
      ∀ p ∈ stc, p.2 = []) := by
  refine ⟨?_, ?_, ?_, ?_, ?_⟩
  · intro p hp
    unfold weightedEntries at hp
    obtain ⟨q, hq, hfq⟩ := List.mem_filterMap.mp hp
    by_cases hlen : q.2.length = 0
    · simp [hlen] at hfq
    · simp only [hlen, if_false] at hfq
      cases hfq
      show 0 < srcWeight q.2.length (q.2.countP (reviewed.contains ·)) epsDefault
      unfold srcWeight
      have hmax : (0 : ℚ) ≤ max 0 (1 - (q.2.countP (reviewed.contains ·) : ℚ) / (q.2.length : ℚ)) :=
        le_max_left _ _
      have heps : (0 : ℚ) < epsDefault := by norm_num [epsDefault]
      linarith
  · intro l _ h0
    rw [h0]
    unfold srcWeight
    norm_num
  · intro l hne hfull
    rw [hfull]
    unfold srcWeight
    have hlen : (l.length : ℚ) ≠ 0 := by
      simpa using List.length_pos.mpr hne |>.ne'
    rw [div_self hlen]
    norm_num
  · norm_num [epsDefault]
  · unfold weightedChoiceByCoverage
    by_cases he : weightedEntries stc reviewed epsDefault = []
    · simp only [he, List.isEmpty_nil, if_true, true_iff]
      unfold weightedEntries at he
      rw [List.filterMap_eq_nil_iff] at he
      intro p hp
      have := he p hp
      by_cases hlen : p.2.length = 0
      · exact List.length_eq_zero.mp hlen
      · simp [hlen] at this
    · have hne : (weightedEntries stc reviewed epsDefault).isEmpty = false := by
        simpa [List.isEmpty_iff] using he
      simp only [hne, Bool.false_eq_true, if_false]
      have hlt : i % (weightedEntries stc reviewed epsDefault).length <
          ((weightedEntries stc reviewed epsDefault).map Prod.fst).length := by
        rw [List.length_map]
        exact Nat.mod_lt _ (List.length_pos.mpr he)
      rw [List.getElem?_eq_getElem hlt]
      constructor
      · intro h
        exact absurd h (by simp)
      · intro hall
        exfalso
        apply he
        unfold weightedEntries
        rw [List.filterMap_eq_nil_iff]
        intro p hp
        simp [hall p hp]

/-- Witness for C5: with one fully-reviewed singleton source and one
unreviewed singleton source, the coverage-0 weight strictly exceeds the
coverage-1 weight, and the choice on a nonempty grouping is not `None`. -/
theorem coverage_weight_properties_witness :
    srcWeight (["v"] : List String).length ((["v"] : List String).countP ((["v"] : List String).contains ·)) epsDefault <
      srcWeight (["u"] : List String).length ((["u"] : List String).countP ((["v"] : List String).contains ·)) epsDefault ∧
    ¬ (weightedChoiceByCoverage [("a", ["u"]), ("b", ["v"])] ["v"] epsDefault 0 = none) := by
  constructor
  · have h1 := (coverage_weight_properties [] ["v"] 0).2.1 ["u"] (by decide) (by decide)
    have h2 := (coverage_weight_properties [] ["v"] 0).2.2.1 ["v"] (by decide) (by decide)
    have h3 := (coverage_weight_properties [] ["v"] 0).2.2.2.1
    rw [h1, h2]
    exact h3
  · intro h
    have := (coverage_weight_properties [("a", ["u"]), ("b", ["v"])] ["v"] 0).2.2.2.2.mp h
    have hb := this ("a", ["u"]) (by decide)
    simp at hb

/-! ## Infrastructure for the get_similar_chunk claim -/

theorem uuid_unique_of_nodup {l : List ChunkRow}
    (h : (l.filterMap ChunkRow.chunk_uuid).Nodup) {r1 r2 : ChunkRow} {u : String}
    (h1 : r1 ∈ l) (h2 : r2 ∈ l) (e1 : r1.chunk_uuid = some u)
    (e2 : r2.chunk_uuid = some u) : r1 = r2 := by
  induction l with
  | nil => cases h1
  | cons a t ih =>
    have hfm : (a :: t).filterMap ChunkRow.chunk_uuid =
        match a.chunk_uuid with
        | some v => v :: t.filterMap ChunkRow.chunk_uuid
        | none => t.filterMap ChunkRow.chunk_uuid := by
      cases hau : a.chunk_uuid <;> simp [List.filterMap_cons, hau]
    rcases List.mem_cons.mp h1 with h1a | h1t <;>
      rcases List.mem_cons.mp h2 with h2a | h2t
    · rw [h1a, h2a]
    · exfalso
      subst h1a
      rw [hfm, e1] at h
      have hmem : u ∈ t.filterMap ChunkRow.chunk_uuid :=
        List.mem_filterMap.mpr ⟨r2, h2t, e2⟩
      exact (List.nodup_cons.mp h).1 hmem
    · exfalso
      subst h2a
      rw [hfm, e2] at h
      have hmem : u ∈ t.filterMap ChunkRow.chunk_uuid :=
        List.mem_filterMap.mpr ⟨r1, h1t, e1⟩
      exact (List.nodup_cons.mp h).1 hmem
    · refine ih ?_ h1t h2t
      rw [hfm] at h
      cases hau : a.chunk_uuid with
      | none => rw [hau] at h; exact h
      | some v => rw [hau] at h; exact (List.nodup_cons.mp h).2

theorem addToMap_sound {m : List (String × List String)} {k v : String}
    {p : String × List String} (hp : p ∈ addToMap m k v) {cu : String}
    (hcu : cu ∈ p.2) :
    (∃ q ∈ m, q.1 = p.1 ∧ cu ∈ q.2) ∨ (p.1 = k ∧ cu = v) := by
  induction m with
  | nil =>
    simp only [addToMap, List.mem_singleton] at hp
    subst hp
    simp only [List.mem_singleton] at hcu
    exact Or.inr ⟨rfl, hcu⟩
  | cons a t ih =>
    by_cases hak : a.1 = k
    · simp only [addToMap, hak, if_true, List.mem_cons] at hp
      rcases hp with hp | hp
      · subst hp
        simp only [List.mem_append, List.mem_singleton] at hcu
        rcases hcu with hcu | hcu
        · exact Or.inl ⟨a, List.mem_cons_self a t, hak, hcu⟩
        · exact Or.inr ⟨rfl, hcu⟩
      · exact Or.inl ⟨p, List.mem_cons_of_mem a hp, rfl, hcu⟩
    · simp only [addToMap, hak, if_false, List.mem_cons] at hp
      rcases hp with hp | hp
      · subst hp
        exact Or.inl ⟨p, List.mem_cons_self p t, rfl, hcu⟩
      · rcases ih hp with ⟨q, hq, hq1, hq2⟩ | hkv
        · exact Or.inl ⟨q, List.mem_cons_of_mem a hq, hq1, hq2⟩
        · exact Or.inr hkv

theorem foldl_sourceMapStep_sound (Q : String → String → Prop)
    (l : List ChunkRow) (acc : List (String × List String))
    (hacc : ∀ p ∈ acc, ∀ cu ∈ p.2, Q p.1 cu)
    (hl : ∀ r ∈ l, ∀ s cu, r.source = some s → r.chunk_uuid = some cu → Q s cu) :
    ∀ p ∈ l.foldl sourceMapStep acc, ∀ cu ∈ p.2, Q p.1 cu := by
  induction l generalizing acc with
  | nil => exact hacc
  | cons r t ih =>
    refine ih (sourceMapStep acc r) ?_ (fun r' hr' => hl r' (List.mem_cons_of_mem r hr'))
    intro p hp cu hcu
    cases hrs : r.source with
    | none =>
      have hstep : sourceMapStep acc r = acc := by
        unfold sourceMapStep
        rw [hrs]
      rw [hstep] at hp
      exact hacc p hp cu hcu
    | some s =>
      cases hru : r.chunk_uuid with
      | none =>
        have hstep : sourceMapStep acc r = acc := by
          unfold sourceMapStep
          rw [hrs, hru]
        rw [hstep] at hp
        exact hacc p hp cu hcu
      | some cu' =>
        have hstep : sourceMapStep acc r =
            if s = "" ∨ cu' = "" then acc else addToMap acc s cu' := by
          unfold sourceMapStep
          rw [hrs, hru]
        rw [hstep] at hp
        by_cases htr : s = "" ∨ cu' = ""
        · rw [if_pos htr] at hp
          exact hacc p hp cu hcu
        · rw [if_neg htr] at hp
          rcases addToMap_sound hp hcu with ⟨q, hq, hq1, hq2⟩ | ⟨hp1, hcv⟩
          · rw [← hq1]
            exact hacc q hq cu hq2
          · rw [hp1, hcv]
            exact hl r (List.mem_cons_self r t) s cu' hrs hru

theorem sourceMap_mem_row (st : Store) {p : String × List String}
    (hp : p ∈ fetchAllChunksSourceMap st) {cu : String} (hcu : cu ∈ p.2) :
    ∃ r ∈ scopedChunks st, r.source = some p.1 ∧ r.chunk_uuid = some cu := by
  refine foldl_sourceMapStep_sound
    (fun s c => ∃ r ∈ scopedChunks st, r.source = some s ∧ r.chunk_uuid = some c)
    (scopedChunks st) [] (by simp) ?_ p hp cu hcu
  intro r hr s c hs hc
  exact ⟨r, hr, hs, hc⟩

theorem lookupD_self_mem {m : List (String × List String)} {k : String}
    (h : lookupD m k ≠ []) : (k, lookupD m k) ∈ m := by
  induction m with
  | nil => simp [lookupD] at h
  | cons a t ih =>
    by_cases hak : a.1 = k
    · rw [lookupD, if_pos hak]
      rw [lookupD, if_pos hak] at h
      have : (k, a.2) = a := by rw [← hak]
      rw [this]
      exact List.mem_cons_self a t
    · rw [lookupD, if_neg hak]
      rw [lookupD, if_neg hak] at h
      exact List.mem_cons_of_mem a (ih h)

theorem weightedChoice_mem_keys {stc : List (String × List String)}
    {reviewed : List String} {eps : ℚ} {i : Nat} {s : String}
    (h : weightedChoiceByCoverage stc reviewed eps i = some s) :
    ∃ l, (s, l) ∈ stc ∧ l ≠ [] := by
  unfold weightedChoiceByCoverage at h
  by_cases he : (weightedEntries stc reviewed eps).isEmpty
  · rw [if_pos he] at h
    cases h
  · rw [if_neg he] at h
    have hmem : s ∈ (weightedEntries stc reviewed eps).map Prod.fst :=
      List.getElem?_mem h
    obtain ⟨q, hq, hfst⟩ := List.mem_map.mp hmem
    unfold weightedEntries at hq
    obtain ⟨p, hp, hfp⟩ := List.mem_filterMap.mp hq
    by_cases hlen : p.2.length = 0
    · rw [if_pos hlen] at hfp
      cases hfp
    · rw [if_neg hlen] at hfp
      cases hfp
      subst hfst
      refine ⟨p.2, ?_, fun hnil => hlen (by rw [hnil]; rfl)⟩
      show (p.1, p.2) ∈ stc
      simpa using hp

theorem choice_fetch_ne (st : Store) {pool : List String} {i : Nat} {x : String}
    {row : ChunkRow} (hp : ∀ t ∈ pool, t ≠ x)
    (h : (pyChoice pool i).bind (fetchRowByUuid st) = some row) :
    row.chunk_uuid ≠ some x := by
  obtain ⟨t, ht, hf⟩ := Option.bind_eq_some.mp h
  rw [fetchRowByUuid_uuid hf]
  intro hcontra
  exact hp t (pyChoice_mem ht) (Option.some.inj hcontra)

theorem mem_foldr_append {l : List (String × List String)} {t : String}
    (h : t ∈ l.foldr (fun p acc => p.2 ++ acc) []) : ∃ p ∈ l, t ∈ p.2 := by
  induction l with
  | nil => cases h
  | cons a tl ih =>
    rcases List.mem_append.mp h with h1 | h2
    · exact ⟨a, List.mem_cons_self a tl, h1⟩
    · obtain ⟨p, hp, ht⟩ := ih h2
      exact ⟨p, List.mem_cons_of_mem a hp, ht⟩

theorem not_self_in_other_source (st : Store)
    (hnodup : ((scopedChunks st).filterMap ChunkRow.chunk_uuid).Nodup)
    {x : String} {cur : ChunkRow}
    (hcur : (scopedChunks st).find? (fun r => decide (r.chunk_uuid = some x)) = some cur)
    {cs : String} (hcs : cur.source = some cs)
    {p : String × List String} (hp : p ∈ fetchAllChunksSourceMap st)
    (hne : p.1 ≠ cs) : x ∉ p.2 := by
  intro hx
  obtain ⟨r, hr, hrs, hru⟩ := sourceMap_mem_row st hp hx
  have hcur_mem := List.mem_of_find?_eq_some hcur
  have hcur_uuid : cur.chunk_uuid = some x := by
    have h1 := List.find?_some hcur
    simpa using h1
  have hrc : r = cur := uuid_unique_of_nodup hnodup hr hcur_mem hru hcur_uuid
  rw [hrc, hcs] at hrs
  exact hne (Option.some.inj hrs).symm

theorem similarSameFallback_ne {st : Store} {rand : RandDraws} {x : String}
    {reviewed cu_list : List String} {row : ChunkRow}
    (h : similarSameFallback st rand x reviewed cu_list = some row) :
    row.chunk_uuid ≠ some x := by
  simp only [similarSameFallback] at h
  split at h
  · cases h
  · refine choice_fetch_ne st ?_ h
    intro t ht
    split at ht
    · exact of_decide_eq_true (List.mem_filter.mp ht).2
    · exact of_decide_eq_true (List.mem_filter.mp (List.mem_filter.mp ht).1).2

theorem similarFlatFallback_ne {st : Store} {rand : RandDraws} {x : String}
    {reviewed : List String} {other : List (String × List String)}
    {row : ChunkRow} (hother : ∀ p ∈ other, x ∉ p.2)
    (h : similarFlatFallback st rand reviewed other = some row) :
    row.chunk_uuid ≠ some x := by
  simp only [similarFlatFallback] at h
  split at h
  · cases h
  · refine choice_fetch_ne st ?_ h
    intro t ht
    have htf : t ∈ other.foldr (fun p acc => p.2 ++ acc) [] := by
      split at ht
      · exact ht
      · exact (List.mem_filter.mp ht).1
    obtain ⟨p, hp, htp⟩ := mem_foldr_append htf
    intro hx
    subst hx
    exact hother p hp htp

theorem similarChosenOther_ne {st : Store} {rand : RandDraws} {x : String}
    {reviewed : List String} {other : List (String × List String)}
    {chosen : String} {row : ChunkRow} (hother : ∀ p ∈ other, x ∉ p.2)
    (h : similarChosenOther st rand reviewed other chosen = some row) :
    row.chunk_uuid ≠ some x := by
  simp only [similarChosenOther] at h
  by_cases hocl : lookupD other chosen = []
  · rw [hocl] at h
    simp [pyChoice] at h
  · have hmem := lookupD_self_mem hocl
    split at h
    · refine choice_fetch_ne st ?_ h
      intro t ht heq
      subst heq
      exact hother _ hmem ht
    · refine choice_fetch_ne st ?_ h
      intro t ht heq
      subst heq
      exact hother _ hmem (List.mem_filter.mp ht).1

theorem similarOther_ne (st : Store) (rand : RandDraws) {x cs : String}
    (reviewed : List String) (cu_list : List String) {cur : ChunkRow}
    (hnodup : ((scopedChunks st).filterMap ChunkRow.chunk_uuid).Nodup)
    (hcur : (scopedChunks st).find? (fun r => decide (r.chunk_uuid = some x)) = some cur)
    (hcs : cur.source = some cs) {row : ChunkRow}
    (h : similarOther st rand x cs reviewed (fetchAllChunksSourceMap st) cu_list = some row) :
    row.chunk_uuid ≠ some x := by
  have hother : ∀ p ∈ (fetchAllChunksSourceMap st).filter
      (fun p => decide (p.1 ≠ cs) && !p.2.isEmpty), x ∉ p.2 := by
    intro p hp
    have hpf := List.mem_filter.mp hp
    have h2 := hpf.2
    simp only [Bool.and_eq_true, decide_eq_true_eq] at h2
    exact not_self_in_other_source st hnodup hcur hcs hpf.1 h2.1
  simp only [similarOther] at h
  split at h
  · exact similarSameFallback_ne h
  · split at h
    · exact similarFlatFallback_ne hother h
    · exact similarChosenOther_ne hother h

theorem similar_body_ne (st : Store) (rand : RandDraws) {x : String}
    (hnodup : ((scopedChunks st).filterMap ChunkRow.chunk_uuid).Nodup)
    {row : ChunkRow} (h : getSimilarBody st rand x = some row) :
    row.chunk_uuid ≠ some x := by
  simp only [getSimilarBody] at h
  split at h
  · cases h
  rename_i cur hcur
  split at h
  · cases h
  rename_i cs hsrc
  split at h
  · cases h
  rename_i hcs
  split at h
  · cases h
  split at h <;> split at h
  · refine choice_fetch_ne st ?_ h
    intro t ht
    exact of_decide_eq_true (List.mem_filter.mp ht).2
  · exact similarOther_ne st rand
      (fetchAllReviewedChunkUuids st) (lookupD (fetchAllChunksSourceMap st) cs)
      hnodup hcur hsrc h
  · refine choice_fetch_ne st ?_ h
    intro t ht
    have h2 := (List.mem_filter.mp ht).2
    simp only [Bool.and_eq_true, decide_eq_true_eq] at h2
    exact h2.2
  · exact similarOther_ne st rand
      (fetchAllReviewedChunkUuids st) (lookupD (fetchAllChunksSourceMap st) cs)
      hnodup hcur hsrc h

/-- C1: for a valid chunk identifier (with the catalog respecting the
documented `chunk_uuid` primary-key uniqueness and at least 2 chunks in
scope), `get_similar_chunk` never returns a row whose `chunk_uuid` equals the
argument, over every random draw and every fallback branch. -/
theorem similar_never_returns_self (st : Store) (rand : RandDraws)
    (x : Option String)
    (hnodup : ((scopedChunks st).filterMap ChunkRow.chunk_uuid).Nodup)
    (hreach : 2 ≤ (scopedChunks st).length)
    (row : ChunkRow) (h : get_similar_chunk st rand x = some row) :
    row.chunk_uuid ≠ x := by
  cases x with
  | none => simp [get_similar_chunk] at h
  | some xs =>
    by_cases hxs : xs = ""
    · subst hxs
      simp [get_similar_chunk] at h
    · simp only [get_similar_chunk, hxs, if_false] at h
      exact similar_body_ne st rand hnodup h

/-- Witness for C1: on a two-chunk document, asking for a chunk similar to
the first returns the second. -/
theorem similar_never_returns_self_witness :
    get_similar_chunk stW randW (some "u1") = some rowW2 ∧
    rowW2.chunk_uuid ≠ some "u1" :=
  ⟨by decide,
   similar_never_returns_self stW randW (some "u1") (by decide) (by decide)
     rowW2 (by decide)⟩
